import Mathlib

/-!
A verification development for `sphinx_last_updated_by_git.py` (the
TeachBooks fork of sphinx-last-updated-by-git).

The Python source is shallowly embedded below.  Byte strings (both the raw
`bytes` coming from the git subprocesses and the decoded `str` values) are
modelled as `List Nat` of character codes; the git subprocesses themselves
are modelled by their observable behaviour: the `git ls-tree` output, the
`git log` output stream (a list of lines as `readline` would return them,
each including its trailing newline where one is present), and the answer
of the `git rev-parse --is-shallow-repository` check.  Counters record how
often each kind of subprocess would have been spawned.
-/

/-- A byte/character string, as a list of character codes. -/
abbrev ByteStr := List Nat

/-- Converts a Lean string literal into the `ByteStr` model (one code point
per element, which agrees with Python `str` comparison and, for ASCII data,
with Python `bytes` comparison). -/
def byteStr (s : String) : ByteStr := s.data.map Char.toNat

/-- ASCII whitespace, as stripped by Python `bytes.rstrip()` / `str.strip()`. -/
def isWsChar (c : Nat) : Bool :=
  c = 32 || c = 9 || c = 10 || c = 13 || c = 11 || c = 12

/-- Python `s.rstrip()`: drop trailing whitespace. -/
def rstripWs (s : ByteStr) : ByteStr := (s.reverse.dropWhile isWsChar).reverse

/-- Python `s.lstrip()`: drop leading whitespace. -/
def lstripWs (s : ByteStr) : ByteStr := s.dropWhile isWsChar

/-- Python `s.strip()`. -/
def stripWs (s : ByteStr) : ByteStr := lstripWs (rstripWs s)

/-- Python `s.rstrip(b'\x00')`: drop trailing NUL bytes. -/
def rstrip0 (s : ByteStr) : ByteStr := (s.reverse.dropWhile (fun c => c = 0)).reverse

/-- Python `s.endswith(b'\x00')`. -/
def endsWith0 (s : ByteStr) : Bool :=
  match s.reverse with
  | [] => false
  | c :: _ => c = 0

/-- Helper for `splitNul`. -/
def splitNulAux : ByteStr → ByteStr → List ByteStr
  | [], acc => [acc.reverse]
  | c :: rest, acc =>
    if c = 0 then acc.reverse :: splitNulAux rest []
    else splitNulAux rest (c :: acc)

/-- Python `s.split(b'\x00')` (on the empty string this yields `[b'']`,
and separators are not collapsed). -/
def splitNul (s : ByteStr) : List ByteStr := splitNulAux s []

/-- One resolved file entry: `(timestamp, too_shallow, author)` exactly as
stored into `file_dates` by `parse_log`. -/
abbrev Cand := ByteStr × Bool × ByteStr

/-- The `file_dates` dictionary: file name to `None` or a resolved entry. -/
abbrev FD := List (ByteStr × Option Cand)

/-- Dictionary store `file_dates[file] = v` (keys are unique in the source). -/
def setFD (fd : FD) (file : ByteStr) (v : Option Cand) : FD :=
  fd.map (fun p => if p.1 = file then (p.1, v) else p)

/-- How `parse_log` can end: normally (all files resolved), with the
"unhandled files" warning, with an `AssertionError`, or out of fuel
(unreachable for the fuel supplied by `parse_log`). -/
inductive ParseOutcome where
  | finished : ParseOutcome
  | warned : ParseOutcome
  | fatal : ParseOutcome
  | fuelout : ParseOutcome
deriving DecidableEq, Repr

/-- The observable result of `parse_log`: outcome, the final `file_dates`
mapping, the files still pending, and the number of
`git rev-parse --is-shallow-repository` subprocess invocations. -/
structure ParseResult where
  outcome : ParseOutcome
  fileDates : FD
  unresolved : List ByteStr
  shallowChecks : Nat
deriving DecidableEq, Repr

/-- The end-of-stream branch of `parse_log`'s loop (source lines 104-112):
`assert exclude_commits` (fatal when the exclude set is empty), otherwise a
warning is logged and the loop breaks with the files left unresolved. -/
def eofResult (exclude requested : List ByteStr) (fd : FD) (n : Nat) : ParseResult :=
  if exclude = [] then ⟨ParseOutcome.fatal, fd, requested, n⟩
  else ⟨ParseOutcome.warned, fd, requested, n⟩

/-- The file-matching loop of `parse_log` (source lines 148-156): each
changed file still pending is removed from the pending set and its
`(timestamp, too_shallow, author)` entry is recorded; other files are
ignored. -/
def resolveFiles (changed requested : List ByteStr) (fd : FD)
    (ts : ByteStr) (tooShallow : Bool) (author : ByteStr) : List ByteStr × FD :=
  changed.foldl
    (fun acc file =>
      if file ∈ acc.1 then
        (acc.1.erase file, setFD acc.2 file (some (ts, tooShallow, author)))
      else acc)
    (requested, fd)

/-- The `while requested_files:` loop of `parse_log` (source lines 95-156).
The stream is the list of lines still unread; a commit header whose
following line does not end with NUL is pushed back as the look-ahead
header of the next iteration (which is what `pending_header` does in the
source).  The shallow check (source lines 138-146) is performed each time a
parentless commit is processed, and is counted. -/
def parseLoop (isShallow : Bool) (exclude : List ByteStr) :
    Nat → List ByteStr → List ByteStr → FD → Nat → ParseResult
  | 0, _, requested, fd, n => ⟨ParseOutcome.fuelout, fd, requested, n⟩
  | Nat.succ fuel, stream, requested, fd, n =>
    if requested = [] then ⟨ParseOutcome.finished, fd, requested, n⟩
    else
      match stream with
      | [] => eofResult exclude requested fd n
      | line1 :: rest =>
        if line1 = [] then eofResult exclude requested fd n
        else
          let pieces := splitNul (rstripWs line1)
          if pieces.length = 4 ∨ pieces.length = 5 then
            let timestamp := pieces.getD 0 []
            let commit := pieces.getD 1 []
            let parents := pieces.getD 2 []
            let author := pieces.getD 3 []
            match rest with
            | [] => eofResult exclude requested fd n
            | r1 :: rest2 =>
              let line2 := rstripWs r1
              if endsWith0 line2 then
                let body := rstrip0 line2
                if body = [] then parseLoop isShallow exclude fuel rest2 requested fd n
                else if commit ∈ exclude then
                  parseLoop isShallow exclude fuel rest2 requested fd n
                else
                  let n2 := if parents = [] then n + 1 else n
                  let tooShallow := if parents = [] then isShallow else false
                  let rf := resolveFiles (splitNul body) requested fd timestamp tooShallow author
                  parseLoop isShallow exclude fuel rest2 rf.1 rf.2 n2
              else
                if line2 = [] then eofResult exclude requested fd n
                else parseLoop isShallow exclude fuel (line2 :: rest2) requested fd n
          else ⟨ParseOutcome.fatal, fd, requested, n⟩

/-- `parse_log` (source lines 86-156): checks that the first line of the
stream is blank, then runs the parsing loop.  A run of the loop consumes at
least one stream line per iteration, so `stream.length + 1` fuel always
suffices. -/
def parse_log (stream : List ByteStr) (requested exclude : List ByteStr)
    (isShallow : Bool) (fd : FD) : ParseResult :=
  match stream with
  | [] => parseLoop isShallow exclude 1 [] requested fd 0
  | line0 :: rest =>
    if rstripWs line0 = [] then
      parseLoop isShallow exclude (rest.length + 1) rest requested fd 0
    else ⟨ParseOutcome.fatal, fd, requested, 0⟩

/-- The observable result of `update_file_dates`: outcome, the final
`file_dates` mapping, whether the `git log` history subprocess was spawned,
and the number of shallow checks. -/
structure ResolveResult where
  outcome : ParseOutcome
  fileDates : FD
  histInvoked : Bool
  shallowChecks : Nat
deriving DecidableEq, Repr

/-- `update_file_dates` (source lines 30-83): the `git ls-tree` output is
stripped of trailing whitespace and NULs; if empty, the function returns
with every file unresolved and never spawns the `git log` subprocess;
otherwise the requested set is intersected with the tracked files and
`parse_log` runs over the history stream.  The two `assert` statements on
nonemptiness are modelled as the fatal outcome. -/
def update_file_dates (lsTree : ByteStr) (stream : List ByteStr) (isShallow : Bool)
    (exclude : List ByteStr) (fd : FD) : ResolveResult :=
  let requested := fd.map Prod.fst
  if requested = [] then ⟨ParseOutcome.fatal, fd, false, 0⟩
  else
    let existing := rstrip0 (rstripWs lsTree)
    if existing = [] then ⟨ParseOutcome.finished, fd, false, 0⟩
    else
      let existingFiles := splitNul existing
      let requested2 := requested.filter (fun f => f ∈ existingFiles)
      if requested2 = [] then ⟨ParseOutcome.fatal, fd, false, 0⟩
      else
        let pr := parse_log stream requested2 exclude isShallow fd
        ⟨pr.outcome, pr.fileDates, true, pr.shallowChecks⟩

/-- Helper: does the Python regex `\s*<[^>]+>\s*$` match starting at the
beginning of `s` (and hence all the way to its end)?  The pattern is
deterministic: greedy `\s*` must end at the `<` (60), the nonempty run of
non-`>` (62) characters cannot backtrack past a `>`, and the tail after the
`>` must be all whitespace. -/
def matchEmailSuffix (s : ByteStr) : Bool :=
  match s.dropWhile isWsChar with
  | 60 :: rest =>
    let body := rest.takeWhile (fun c => c ≠ 62)
    (match rest.drop body.length with
     | 62 :: tail => !body.isEmpty && tail.all isWsChar
     | _ => false)
  | _ => false

/-- Python `re.sub(r"\s*<[^>]+>\s*$", "", s)`: remove the leftmost match of
the trailing-email pattern (which necessarily extends to the end of the
string), keeping everything before it. -/
def stripEmailSuffix : ByteStr → ByteStr
  | [] => []
  | c :: rest =>
    if matchEmailSuffix (c :: rest) then [] else c :: stripEmailSuffix rest

/-- Python `set.add`, modelled on duplicate-free lists. -/
def setAdd (s : List ByteStr) (a : ByteStr) : List ByteStr :=
  if a ∈ s then s else s ++ [a]

/-- Python `set.update`, modelled on duplicate-free lists. -/
def setUnion (s t : List ByteStr) : List ByteStr := t.foldl setAdd s

/-- One line of the `git log --follow --format=%aN%x00%(trailers:...)%x00`
output (source lines 181-198): the first nonempty NUL-separated part is the
main author name, the remaining nonempty parts are Co-authored-by values
whose trailing `<email>` annotation is stripped. -/
def parseAuthorLine (acc : List ByteStr) (line : ByteStr) : List ByteStr :=
  if line = [] then acc
  else
    match (splitNul line).filter (fun p => p ≠ []) with
    | [] => acc
    | main :: rest =>
      let acc2 := if stripWs main ≠ [] then setAdd acc (stripWs main) else acc
      rest.foldl
        (fun a co =>
          let co2 := stripWs co
          if co2 = [] then a
          else
            let nameOnly := stripWs (stripEmailSuffix co2)
            if nameOnly ≠ [] then setAdd a nameOnly else a)
        acc2

/-- The full author set extracted from one file's `git log --follow`
output (the `authors` set of source lines 180-198). -/
def parseAuthorsOutput (outLines : List ByteStr) : List ByteStr :=
  outLines.foldl parseAuthorLine []

/-- The observable result of `update_file_authors_follow_per_file` for one
directory: the number of `git log --follow` subprocess invocations and the
accumulated `file_authors` mapping (keyed by file name; the directory part
of the source's `(git_dir, filename)` key is fixed). -/
structure AuthorsRun where
  calls : Nat
  fileAuthors : ByteStr → List ByteStr

/-- One iteration of the `for filename in file_list` loop of
`update_file_authors_follow_per_file` (source lines 167-205): spawn one
`git log --follow` subprocess for this file; a failing subprocess (`gitLog`
returns `none`) is skipped; a nonempty author set is unioned into the
`file_authors` entry of that file. -/
def authorStep (gitLog : ByteStr → Option (List ByteStr))
    (st : AuthorsRun) (filename : ByteStr) : AuthorsRun :=
  match gitLog filename with
  | none => ⟨st.calls + 1, st.fileAuthors⟩
  | some outLines =>
    let authors := parseAuthorsOutput outLines
    if authors = [] then ⟨st.calls + 1, st.fileAuthors⟩
    else
      ⟨st.calls + 1,
       fun k =>
         if k = filename then setUnion (st.fileAuthors filename) authors
         else st.fileAuthors k⟩

/-- `update_file_authors_follow_per_file` (source lines 159-205): runs
`authorStep` once per file in `file_list`. -/
def update_file_authors_follow_per_file (fileList : List ByteStr)
    (gitLog : ByteStr → Option (List ByteStr))
    (fa : ByteStr → List ByteStr) : AuthorsRun :=
  fileList.foldl (authorStep gitLog) ⟨0, fa⟩

/-- Python `bytes`/`str` lexicographic `<` on the `ByteStr` model. -/
def byteStrLtb : ByteStr → ByteStr → Bool
  | _, [] => false
  | [], _ :: _ => true
  | a :: as, b :: bs => decide (a < b) || (decide (a = b) && byteStrLtb as bs)

/-- Python `bool` comparison: `False < True` only. -/
def boolLtb (x y : Bool) : Bool := !x && y

/-- Python tuple `<` on `(timestamp, too_shallow, author)` candidates:
lexicographic on the three components. -/
def candLtb (x y : Cand) : Bool :=
  byteStrLtb x.1 y.1 ||
    (decide (x.1 = y.1) &&
      (boolLtb x.2.1 y.2.1 ||
        (decide (x.2.1 = y.2.1) && byteStrLtb x.2.2 y.2.2)))

/-- Python `max` over the nonempty list `c :: l`: scan left to right,
replacing the current value whenever a strictly greater element appears. -/
def pyMax (c : Cand) (l : List Cand) : Cand :=
  l.foldl (fun a b => if candLtb a b then b else a) c

/-- The per-document assembly step of `_env_updated` (source lines
307-319): with a nonempty candidate list, take `max(timestamps)`; if the
maximum's `too_shallow` flag is set, the timestamp becomes `None` and the
"Git clone too shallow" warning fires.  Returns
`(timestamp, author, warned)`. -/
def assembleDoc (timestamps : List Cand) : Option ByteStr × Option ByteStr × Bool :=
  match timestamps with
  | [] => (none, none, false)
  | c :: rest =>
    let m := pyMax c rest
    if m.2.1 then (none, some m.2.2, true)
    else (some m.1, some m.2.2, false)

/-- A value stored in the `env.git_last_updated` dictionary: Python `None`,
the 2-tuple `(None, manual_authors)` written by `_source_read`, or the
4-tuple written by `_env_updated`. -/
inductive EnvEntry where
  | pyNone : EnvEntry
  | pair2 : Option (List ByteStr) → EnvEntry
  | tuple4 : Option ByteStr → Bool → Option ByteStr → Option (List ByteStr) → EnvEntry
deriving DecidableEq

/-- The `env.git_last_updated` store: document name to stored value
(`none` means the key is absent from the dictionary). -/
abbrev EnvStore := ByteStr → Option EnvEntry

/-- `_source_read` (source lines 602-620): documents outside `found_docs`
or already present in the store are left alone; otherwise the store gains
the 2-tuple `(None, manual_authors)` for this document. -/
def source_read (foundDocs : List ByteStr) (env : EnvStore)
    (docname : ByteStr) (manual : Option (List ByteStr)) : EnvStore :=
  if docname ∈ foundDocs then
    if (env docname).isSome then env
    else fun k => if k = docname then some (EnvEntry.pair2 manual) else env k
  else env

/-- The document-selection filter at the top of `_env_updated` (source
lines 223-230): a document is put into `src_dates`/`src_paths` exactly when
its stored value is Python `None` (`if data is not None: continue`) and its
path is not excluded. -/
def envUpdatedSelected (env : EnvStore) (excluded : ByteStr → Bool)
    (docpath : ByteStr → ByteStr) (docname : ByteStr) : Bool :=
  match env docname with
  | none => false
  | some EnvEntry.pyNone => !excluded (docpath docname)
  | some _ => false

/-- `_env_merge_info` (source lines 623-624):
`env.git_last_updated.update(other.git_last_updated)` — every key present
in `other` takes `other`'s value, all remaining keys keep `env`'s value. -/
def env_merge_info (env other : EnvStore) : EnvStore :=
  fun k =>
    match other k with
    | some v => some v
    | none => env k

/-- `_env_purge_doc` (source lines 627-631): delete the document's entry,
swallowing the `KeyError` when it is absent. -/
def env_purge_doc (env : EnvStore) (docname : ByteStr) : EnvStore :=
  fun k => if k = docname then none else env k

/-- The byte-string order is irreflexive. -/
theorem byteStrLtb_irrefl : ∀ x : ByteStr, byteStrLtb x x = false
  | [] => rfl
  | a :: as => by simp [byteStrLtb, byteStrLtb_irrefl as]

/-- The byte-string order is asymmetric. -/
theorem byteStrLtb_asymm : ∀ x y : ByteStr,
    byteStrLtb x y = true → byteStrLtb y x = false
  | [], [], h => by simp [byteStrLtb] at h
  | _ :: _, [], h => by simp [byteStrLtb] at h
  | [], _ :: _, _ => rfl
  | a :: as, b :: bs, h => by
    simp only [byteStrLtb, Bool.or_eq_true, Bool.and_eq_true, decide_eq_true_eq] at h ⊢
    simp only [Bool.or_eq_false_iff, Bool.and_eq_false_iff, decide_eq_false_iff_not]
    rcases h with h | ⟨he, hlt⟩
    · exact ⟨by omega, Or.inl (by omega)⟩
    · subst he
      exact ⟨by omega, Or.inr (byteStrLtb_asymm as bs hlt)⟩

/-- Two byte strings neither of which is below the other are equal. -/
theorem byteStrLtb_connex : ∀ x y : ByteStr,
    byteStrLtb x y = false → byteStrLtb y x = false → x = y
  | [], [], _, _ => rfl
  | [], _ :: _, h, _ => by simp [byteStrLtb] at h
  | _ :: _, [], _, h => by simp [byteStrLtb] at h
  | a :: as, b :: bs, h, h2 => by
    simp only [byteStrLtb, Bool.or_eq_false_iff, Bool.and_eq_false_iff,
      decide_eq_false_iff_not] at h h2
    obtain ⟨h1, h3⟩ := h
    obtain ⟨h4, h5⟩ := h2
    have hab : a = b := by omega
    subst hab
    have h6 : byteStrLtb as bs = false := by
      rcases h3 with h3 | h3
      · exact absurd rfl h3
      · exact h3
    have h7 : byteStrLtb bs as = false := by
      rcases h5 with h5 | h5
      · exact absurd rfl h5
      · exact h5
    rw [byteStrLtb_connex as bs h6 h7]

/-- The byte-string order is transitive. -/
theorem byteStrLtb_trans : ∀ x y z : ByteStr,
    byteStrLtb x y = true → byteStrLtb y z = true → byteStrLtb x z = true
  | _, _, [], _, h2 => by simp [byteStrLtb] at h2
  | _, [], _ :: _, h, _ => by simp [byteStrLtb] at h
  | [], _ :: _, _ :: _, _, _ => rfl
  | a :: as, b :: bs, c :: cs, h, h2 => by
    simp only [byteStrLtb, Bool.or_eq_true, Bool.and_eq_true, decide_eq_true_eq] at h h2 ⊢
    rcases h with h | ⟨he, hlt⟩
    · rcases h2 with h2 | ⟨he2, _⟩
      · exact Or.inl (by omega)
      · subst he2; exact Or.inl h
    · subst he
      rcases h2 with h2 | ⟨he2, hlt2⟩
      · exact Or.inl h2
      · subst he2
        exact Or.inr ⟨rfl, byteStrLtb_trans as bs cs hlt hlt2⟩

/-- A Boolean that is not true is false. -/
theorem bool_eq_false {b : Bool} (h : ¬ b = true) : b = false := by
  cases b
  · rfl
  · exact absurd rfl h

/-- The Boolean order is irreflexive. -/
theorem boolLtb_irrefl (x : Bool) : boolLtb x x = false := by
  cases x <;> rfl

/-- The Boolean order is asymmetric. -/
theorem boolLtb_asymm (x y : Bool) (h : boolLtb x y = true) : boolLtb y x = false := by
  cases x <;> cases y <;> simp_all [boolLtb]

/-- Two Booleans neither of which is below the other are equal. -/
theorem boolLtb_connex (x y : Bool) (h1 : boolLtb x y = false)
    (h2 : boolLtb y x = false) : x = y := by
  cases x <;> cases y <;> simp_all [boolLtb]

/-- Unfolds `candLtb` to its propositional reading. -/
theorem candLtb_eq_true_iff (x y : Cand) :
    candLtb x y = true ↔
      byteStrLtb x.1 y.1 = true ∨
        (x.1 = y.1 ∧ (boolLtb x.2.1 y.2.1 = true ∨
          (x.2.1 = y.2.1 ∧ byteStrLtb x.2.2 y.2.2 = true))) := by
  simp [candLtb]

/-- Unfolds `candLtb = false` to its propositional reading. -/
theorem candLtb_eq_false_iff (x y : Cand) :
    candLtb x y = false ↔
      byteStrLtb x.1 y.1 = false ∧
        (x.1 = y.1 → (boolLtb x.2.1 y.2.1 = false ∧
          (x.2.1 = y.2.1 → byteStrLtb x.2.2 y.2.2 = false))) := by
  rw [candLtb]
  cases h1 : byteStrLtb x.1 y.1 <;>
    by_cases e1 : x.1 = y.1 <;>
      cases h2 : boolLtb x.2.1 y.2.1 <;>
        by_cases e2 : x.2.1 = y.2.1 <;>
          cases h3 : byteStrLtb x.2.2 y.2.2 <;>
            simp [h1, e1, h2, e2, h3]

/-- The candidate order is irreflexive. -/
theorem candLtb_irrefl (x : Cand) : candLtb x x = false := by
  simp [candLtb, byteStrLtb_irrefl, boolLtb_irrefl]

/-- The candidate order is transitive. -/
theorem candLtb_trans (x y z : Cand) (h1 : candLtb x y = true)
    (h2 : candLtb y z = true) : candLtb x z = true := by
  rw [candLtb_eq_true_iff] at h1 h2 ⊢
  obtain ⟨x1, x2, x3⟩ := x
  obtain ⟨y1, y2, y3⟩ := y
  obtain ⟨z1, z2, z3⟩ := z
  simp only at h1 h2 ⊢
  rcases h1 with h1 | ⟨e1, h1⟩
  · rcases h2 with h2 | ⟨e2, _⟩
    · exact Or.inl (byteStrLtb_trans _ _ _ h1 h2)
    · subst e2; exact Or.inl h1
  · subst e1
    rcases h2 with h2 | ⟨e2, h2⟩
    · exact Or.inl h2
    · subst e2
      refine Or.inr ⟨rfl, ?_⟩
      rcases h1 with h1 | ⟨f1, h1⟩
      · rcases h2 with h2 | ⟨f2, _⟩
        · exfalso
          cases y2
          · simp [boolLtb] at h1
          · simp [boolLtb] at h2
        · subst f2; exact Or.inl h1
      · subst f1
        rcases h2 with h2 | ⟨f2, h2⟩
        · exact Or.inl h2
        · subst f2
          exact Or.inr ⟨rfl, byteStrLtb_trans _ _ _ h1 h2⟩

/-- The candidate order is asymmetric. -/
theorem candLtb_asymm (x y : Cand) (h : candLtb x y = true) : candLtb y x = false := by
  apply bool_eq_false
  intro hx
  have h2 := candLtb_trans x y x h hx
  rw [candLtb_irrefl] at h2
  exact Bool.noConfusion h2

/-- Two candidates neither of which is below the other are equal. -/
theorem candLtb_connex (x y : Cand) (h1 : candLtb x y = false)
    (h2 : candLtb y x = false) : x = y := by
  rw [candLtb_eq_false_iff] at h1 h2
  obtain ⟨x1, x2, x3⟩ := x
  obtain ⟨y1, y2, y3⟩ := y
  simp only at h1 h2
  obtain ⟨a1, b1⟩ := h1
  obtain ⟨a2, b2⟩ := h2
  have e1 : x1 = y1 := byteStrLtb_connex _ _ a1 a2
  subst e1
  obtain ⟨c1, d1⟩ := b1 rfl
  obtain ⟨c2, d2⟩ := b2 rfl
  have e2 : x2 = y2 := boolLtb_connex _ _ c1 c2
  subst e2
  have e3 : x3 = y3 := byteStrLtb_connex _ _ (d1 rfl) (d2 rfl)
  rw [e3]

/-- Unfolding `pyMax` one step. -/
theorem pyMax_cons (c b : Cand) (t : List Cand) :
    pyMax c (b :: t) = pyMax (if candLtb c b then b else c) t := rfl

/-- The scanned maximum is one of the candidates. -/
theorem pyMax_mem : ∀ (l : List Cand) (c : Cand), pyMax c l ∈ c :: l
  | [], c => by simp [pyMax]
  | b :: t, c => by
    rw [pyMax_cons]
    rcases List.mem_cons.mp (pyMax_mem t (if candLtb c b then b else c)) with h | h
    · rw [h]
      by_cases hc : candLtb c b = true
      · rw [if_pos hc]
        exact List.mem_cons.mpr (Or.inr (List.mem_cons_self b t))
      · rw [if_neg hc]
        exact List.mem_cons_self c (b :: t)
    · exact List.mem_cons.mpr (Or.inr (List.mem_cons.mpr (Or.inr h)))

/-- No candidate is strictly above the scanned maximum. -/
theorem pyMax_ge : ∀ (l : List Cand) (c d : Cand),
    d ∈ c :: l → candLtb (pyMax c l) d = false
  | [], c, d, hd => by
    have he : d = c := by simpa using hd
    subst he
    simpa [pyMax] using candLtb_irrefl d
  | b :: t, c, d, hd => by
    rw [pyMax_cons]
    by_cases hc : candLtb c b = true
    · rw [if_pos hc]
      rcases List.mem_cons.mp hd with h | h
      · subst h
        apply bool_eq_false
        intro hlt
        have h1 : candLtb (pyMax b t) b = false :=
          pyMax_ge t b b (List.mem_cons_self b t)
        have h2 : candLtb (pyMax b t) b = true := candLtb_trans _ _ _ hlt hc
        rw [h1] at h2
        exact Bool.noConfusion h2
      · exact pyMax_ge t b d h
    · rw [if_neg hc]
      rcases List.mem_cons.mp hd with h | h
      · subst h
        exact pyMax_ge t d d (List.mem_cons_self d t)
      · rcases List.mem_cons.mp h with h | h
        · subst h
          apply bool_eq_false
          intro hlt
          have hcc : candLtb (pyMax c t) c = false :=
            pyMax_ge t c c (List.mem_cons_self c t)
          by_cases hbc : candLtb d c = true
          · have h2 := candLtb_trans _ _ _ hlt hbc
            rw [hcc] at h2
            exact Bool.noConfusion h2
          · have he : c = d := candLtb_connex c d (bool_eq_false hc) (bool_eq_false hbc)
            rw [← he] at hlt
            rw [hcc] at hlt
            exact Bool.noConfusion hlt
        · exact pyMax_ge t c d (List.mem_cons.mpr (Or.inr h))

/-- The scanned maximum only depends on the multiset of candidates. -/
theorem pyMax_of_perm (c cq : Cand) (l lq : List Cand)
    (hp : (c :: l).Perm (cq :: lq)) : pyMax c l = pyMax cq lq := by
  have h1 := pyMax_mem l c
  have h2 := pyMax_mem lq cq
  have m1 : candLtb (pyMax cq lq) (pyMax c l) = false :=
    pyMax_ge lq cq (pyMax c l) (hp.mem_iff.mp h1)
  have m2 : candLtb (pyMax c l) (pyMax cq lq) = false :=
    pyMax_ge l c (pyMax cq lq) (hp.symm.mem_iff.mp h2)
  exact candLtb_connex _ _ m2 m1

/-- Each `authorStep` iteration spawns exactly one subprocess. -/
theorem authorStep_calls (gitLog : ByteStr → Option (List ByteStr))
    (st : AuthorsRun) (filename : ByteStr) :
    (authorStep gitLog st filename).calls = st.calls + 1 := by
  unfold authorStep
  cases gitLog filename
  · rfl
  · simp only
    split <;> rfl

/-- Folding `authorStep` over a file list spawns one subprocess per file. -/
theorem authorStep_foldl_calls (gitLog : ByteStr → Option (List ByteStr)) :
    ∀ (fl : List ByteStr) (st : AuthorsRun),
      (fl.foldl (authorStep gitLog) st).calls = st.calls + fl.length
  | [], st => rfl
  | f :: fl, st => by
    rw [List.foldl_cons, authorStep_foldl_calls gitLog fl, authorStep_calls]
    simp only [List.length_cons]
    omega

/-- C1: the claim says every document first read in a build generation is
initialized to the unresolved marker by the source-read hook and is then
selected by the env-updated pass (which picks exactly the documents whose
stored value is that marker) and filled.  The code violates this: the hook
stores the 2-tuple `(None, manual_authors)`, while the selection filter
skips every value other than Python `None`, so a freshly read document is
never selected and its result is never filled. -/
theorem c1_fresh_doc_never_selected :
    source_read [byteStr "doc"] (fun _ => none) (byteStr "doc") none (byteStr "doc")
        = some (EnvEntry.pair2 none)
      ∧ envUpdatedSelected
          (source_read [byteStr "doc"] (fun _ => none) (byteStr "doc") none)
          (fun _ => false) (fun d => d) (byteStr "doc") = false := by
  constructor
  · decide
  · decide

/-- C2 (counterexample): the claimed batch strategy would issue one
history-stream call per directory covering all target files at once, but
the author-collection routine in the code spawns one subprocess per file:
for a directory with two target files it makes 2 calls, not 1. -/
theorem c2_not_one_call_per_directory :
    (update_file_authors_follow_per_file [byteStr "a.rst", byteStr "b.rst"]
        (fun _ => some []) (fun _ => [])).calls = 2
      ∧ ¬ (update_file_authors_follow_per_file [byteStr "a.rst", byteStr "b.rst"]
        (fun _ => some []) (fun _ => [])).calls = 1 := by
  constructor
  · decide
  · decide

/-- C2 (amended): when full-author collection is enabled the code uses a
per-file rename-following strategy — exactly one history-stream call per
target file — and for a file touched by commits authored by Ana and Ben the
resulting author set is exactly {Ana, Ben}; Co-authored-by trailer names
have their trailing email annotation stripped. -/
theorem c2_per_file_author_collection :
    (∀ (fileList : List ByteStr) (gitLog : ByteStr → Option (List ByteStr))
        (fa : ByteStr → List ByteStr),
      (update_file_authors_follow_per_file fileList gitLog fa).calls = fileList.length)
    ∧ (∀ a : ByteStr,
        a ∈ (update_file_authors_follow_per_file [byteStr "x.rst"]
              (fun _ => some [byteStr "Ana\x00\x00", byteStr "Ben\x00\x00"])
              (fun _ => [])).fileAuthors (byteStr "x.rst")
          ↔ (a = byteStr "Ana" ∨ a = byteStr "Ben"))
    ∧ byteStr "Dan Dev"
        ∈ parseAuthorsOutput [byteStr "Cara\x00Dan Dev <dan@example.com>\x00"] := by
  refine ⟨?_, ?_, by decide⟩
  · intro fileList gitLog fa
    unfold update_file_authors_follow_per_file
    rw [authorStep_foldl_calls]
    simp
  · intro a
    have h : (update_file_authors_follow_per_file [byteStr "x.rst"]
          (fun _ => some [byteStr "Ana\x00\x00", byteStr "Ben\x00\x00"])
          (fun _ => [])).fileAuthors (byteStr "x.rst")
        = [byteStr "Ana", byteStr "Ben"] := by decide
    rw [h]
    simp

/-- C3: the claim (and the docstring of `update_file_dates`, which promises
at most three git subprocesses) says the shallow-repository check runs at
most once per resolution call, memoized.  The code re-runs it at every root
commit: with two root commits each resolving one pending file, the check
runs twice.  A single non-root commit resolving everything triggers no
check at all (the laziness half of the claim). -/
theorem c3_shallow_check_runs_per_root_commit :
    (update_file_dates (byteStr "a\x00b\x00")
        [byteStr "\n",
         byteStr "1000\x00h1\x00\x00Ana\n",
         byteStr "a\x00\n",
         byteStr "999\x00h2\x00\x00Ben\n",
         byteStr "b\x00"]
        false []
        [(byteStr "a", none), (byteStr "b", none)]).shallowChecks = 2
      ∧ ¬ (update_file_dates (byteStr "a\x00b\x00")
        [byteStr "\n",
         byteStr "1000\x00h1\x00\x00Ana\n",
         byteStr "a\x00\n",
         byteStr "999\x00h2\x00\x00Ben\n",
         byteStr "b\x00"]
        false []
        [(byteStr "a", none), (byteStr "b", none)]).shallowChecks ≤ 1
      ∧ (update_file_dates (byteStr "a\x00")
        [byteStr "\n",
         byteStr "1000\x00h1\x00p0\x00Ana\n",
         byteStr "a\x00"]
        false []
        [(byteStr "a", none)]).shallowChecks = 0 := by
  refine ⟨by decide, by decide, by decide⟩

/-- C4: for a document with a nonempty candidate list whose maximum by
timestamp is unique, the assembler reports that candidate's timestamp, and
reports the timestamp as unknown (`None`) together with the too-shallow
warning exactly when that maximum candidate's flag is set — whatever the
flags of the other candidates are. -/
theorem c4_max_timestamp_candidate_decides (l : List Cand) (c : Cand)
    (hmem : c ∈ l)
    (hmax : ∀ d ∈ l, d ≠ c → byteStrLtb d.1 c.1 = true) :
    assembleDoc l = (if c.2.1 then none else some c.1, some c.2.2, c.2.1) := by
  match l, hmem, hmax with
  | hd :: tl, hmem, hmax =>
    have hm : pyMax hd tl = c := by
      rcases eq_or_ne (pyMax hd tl) c with he | hne
      · exact he
      · exfalso
        have h1 : candLtb (pyMax hd tl) c = false := pyMax_ge tl hd c hmem
        have h2 : byteStrLtb (pyMax hd tl).1 c.1 = true :=
          hmax _ (pyMax_mem tl hd) hne
        have h3 : candLtb (pyMax hd tl) c = true := by
          rw [candLtb_eq_true_iff]
          exact Or.inl h2
        rw [h1] at h3
        exact Bool.noConfusion h3
    have hred : assembleDoc (hd :: tl)
        = (if (pyMax hd tl).2.1 then (none, some (pyMax hd tl).2.2, true)
            else (some (pyMax hd tl).1, some (pyMax hd tl).2.2, false)) := rfl
    rw [hred, hm]
    cases hs : c.2.1 <;> simp [hs]

/-- C4 witness: a shallow-flagged maximum candidate converts the timestamp
to unknown and warns, even though the non-maximum candidate is clean. -/
theorem c4_witness :
    assembleDoc [(byteStr "5", false, byteStr "Ana"), (byteStr "9", true, byteStr "Sam")]
      = (none, some (byteStr "Sam"), true) := by
  have h := c4_max_timestamp_candidate_decides
    [(byteStr "5", false, byteStr "Ana"), (byteStr "9", true, byteStr "Sam")]
    (byteStr "9", true, byteStr "Sam") (by decide) (by decide)
  simpa using h

/-- C5: if the history stream ends while requested files remain pending,
the parser hits the fatal assertion when the exclude-commit set is empty;
with a non-empty exclude set it instead warns and stops without error,
leaving the pending files unresolved and the mapping untouched. -/
theorem c5_stream_end_with_pending_files (isShallow : Bool)
    (exclude requested : List ByteStr) (fd : FD) (fuel n : Nat)
    (hreq : requested ≠ []) :
    (exclude = [] →
        (parseLoop isShallow exclude (fuel + 1) [] requested fd n).outcome
          = ParseOutcome.fatal)
      ∧ (exclude ≠ [] →
          (parseLoop isShallow exclude (fuel + 1) [] requested fd n).outcome
              = ParseOutcome.warned
            ∧ (parseLoop isShallow exclude (fuel + 1) [] requested fd n).fileDates = fd
            ∧ (parseLoop isShallow exclude (fuel + 1) [] requested fd n).unresolved
                = requested) := by
  constructor
  · intro he
    simp [parseLoop, hreq, eofResult, he]
  · intro he
    simp [parseLoop, hreq, eofResult, he]

/-- C5 witness: scenario C — only the excluded commit touched `z.rst`; the
stream ends, the non-empty exclude set makes this a warning, the file ends
unresolved. -/
theorem c5_witness :
    (parseLoop false [byteStr "h"] 1 [] [byteStr "z.rst"] [(byteStr "z.rst", none)] 0).outcome
        = ParseOutcome.warned
      ∧ (parseLoop false [byteStr "h"] 1 [] [byteStr "z.rst"]
          [(byteStr "z.rst", none)] 0).fileDates = [(byteStr "z.rst", none)]
      ∧ (parseLoop false [byteStr "h"] 1 [] [byteStr "z.rst"]
          [(byteStr "z.rst", none)] 0).unresolved = [byteStr "z.rst"] :=
  (c5_stream_end_with_pending_files false [byteStr "h"] [byteStr "z.rst"]
    [(byteStr "z.rst", none)] 0 0 (by decide)).2 (by decide)

/-- C6: a commit header whose following line does not end with the NUL
field separator is processed as a zero-file commit: nothing is resolved,
the state (pending set, mapping, shallow-check count) is unchanged, and the
stripped line becomes the look-ahead header of the next iteration. -/
theorem c6_missing_file_list_skips_commit (isShallow : Bool)
    (exclude : List ByteStr) (fuel n : Nat) (line1 r1 : ByteStr)
    (rest2 requested : List ByteStr) (fd : FD)
    (hreq : requested ≠ []) (h1 : line1 ≠ [])
    (hp : (splitNul (rstripWs line1)).length = 4 ∨ (splitNul (rstripWs line1)).length = 5)
    (hnul : endsWith0 (rstripWs r1) = false) (hne : rstripWs r1 ≠ []) :
    parseLoop isShallow exclude (fuel + 1) (line1 :: r1 :: rest2) requested fd n
      = parseLoop isShallow exclude fuel (rstripWs r1 :: rest2) requested fd n := by
  conv_lhs => rw [parseLoop]
  simp [hreq, h1, hp, hnul, hne]

/-- C6 witness: a merge-commit header (two parents, no file list when `-m`
is off) followed directly by the next commit's header is skipped without
resolving the pending file. -/
theorem c6_witness :
    parseLoop false [byteStr "hx"] 2
        [byteStr "1000\x00m1\x00p1 p2\x00Ana\n", byteStr "999\x00h2\x00\x00Ben\n"]
        [byteStr "a"] [(byteStr "a", none)] 0
      = parseLoop false [byteStr "hx"] 1
          (rstripWs (byteStr "999\x00h2\x00\x00Ben\n") :: [])
          [byteStr "a"] [(byteStr "a", none)] 0 :=
  c6_missing_file_list_skips_commit false [byteStr "hx"] 1 0
    (byteStr "1000\x00m1\x00p1 p2\x00Ana\n") (byteStr "999\x00h2\x00\x00Ben\n") []
    [byteStr "a"] [(byteStr "a", none)]
    (by decide) (by decide) (by decide) (by decide) (by decide)

/-- C7: when the tracked-files query output is empty after stripping (none
of the requested files are tracked), the resolver returns with the
file-dates mapping unchanged, without spawning the history-stream
subprocess and without any shallow check. -/
theorem c7_untracked_short_circuit (lsTree : ByteStr) (stream : List ByteStr)
    (isShallow : Bool) (exclude : List ByteStr) (fd : FD)
    (hfd : fd.map Prod.fst ≠ [])
    (hnone : rstrip0 (rstripWs lsTree) = []) :
    update_file_dates lsTree stream isShallow exclude fd
      = ⟨ParseOutcome.finished, fd, false, 0⟩ := by
  unfold update_file_dates
  simp [hfd, hnone]

/-- C7 witness: an empty `git ls-tree` output short-circuits. -/
theorem c7_witness :
    update_file_dates [] [byteStr "\n"] false [] [(byteStr "a.rst", none)]
      = ⟨ParseOutcome.finished, [(byteStr "a.rst", none)], false, 0⟩ :=
  c7_untracked_short_circuit [] [byteStr "\n"] false [] [(byteStr "a.rst", none)]
    (by decide) (by decide)

/-- C8: merging the per-document result mapping into itself leaves it
unchanged — `dict.update` with the same mapping is the identity. -/
theorem c8_merge_idempotent (env : EnvStore) : env_merge_info env env = env := by
  funext k
  unfold env_merge_info
  cases env k <;> rfl

/-- C9: candidate selection is the full lexicographic tuple comparison
`candLtb`: `pyMax` is a maximum for it and depends only on the multiset of
candidates (insertion order never matters); timestamps are compared as
decimal byte strings, so `"9"` beats `"10"`; on equal timestamp bytes the
too-shallow flag wins, then the lexicographically greatest author; and the
assembler inherits this: an equal-timestamp flagged candidate turns the
result into an unknown timestamp with a warning. -/
theorem c9_selection_is_lexicographic :
    (∀ (c : Cand) (l : List Cand),
        pyMax c l ∈ c :: l ∧ ∀ d ∈ c :: l, candLtb (pyMax c l) d = false)
    ∧ (∀ (c cq : Cand) (l lq : List Cand),
        (c :: l).Perm (cq :: lq) → pyMax c l = pyMax cq lq)
    ∧ pyMax (byteStr "9", false, byteStr "A") [(byteStr "10", false, byteStr "B")]
        = (byteStr "9", false, byteStr "A")
    ∧ pyMax (byteStr "5", false, byteStr "A") [(byteStr "5", true, byteStr "B")]
        = (byteStr "5", true, byteStr "B")
    ∧ pyMax (byteStr "5", true, byteStr "B") [(byteStr "5", false, byteStr "A")]
        = (byteStr "5", true, byteStr "B")
    ∧ pyMax (byteStr "5", true, byteStr "A") [(byteStr "5", true, byteStr "B")]
        = (byteStr "5", true, byteStr "B")
    ∧ assembleDoc [(byteStr "5", false, byteStr "A"), (byteStr "5", true, byteStr "B")]
        = (none, some (byteStr "B"), true) := by
  refine ⟨?_, ?_, by decide, by decide, by decide, by decide, by decide⟩
  · intro c l
    exact ⟨pyMax_mem l c, fun d hd => pyMax_ge l c d hd⟩
  · intro c cq l lq hp
    exact pyMax_of_perm c cq l lq hp

/-- C9 witness: swapping the insertion order of two candidates does not
change the selected maximum. -/
theorem c9_witness :
    pyMax (byteStr "5", false, byteStr "A") [(byteStr "5", true, byteStr "B")]
      = pyMax (byteStr "5", true, byteStr "B") [(byteStr "5", false, byteStr "A")] :=
  c9_selection_is_lexicographic.2.1
    (byteStr "5", false, byteStr "A") (byteStr "5", true, byteStr "B")
    [(byteStr "5", true, byteStr "B")] [(byteStr "5", false, byteStr "A")]
    (by decide)

/-- C10: purging a document that is absent from the store leaves it
unchanged (the `KeyError` is swallowed), and purging twice equals purging
once. -/
theorem c10_purge_absent_noop (env : EnvStore) (d : ByteStr) :
    (env d = none → env_purge_doc env d = env)
      ∧ env_purge_doc (env_purge_doc env d) d = env_purge_doc env d := by
  constructor
  · intro h
    funext k
    unfold env_purge_doc
    by_cases hk : k = d
    · subst hk
      simp [h]
    · simp [hk]
  · funext k
    unfold env_purge_doc
    by_cases hk : k = d <;> simp [hk]

/-- C10 witness: purging an absent document from the empty store. -/
theorem c10_witness :
    env_purge_doc (fun _ => none) (byteStr "doc") = (fun _ => (none : Option EnvEntry))
      ∧ env_purge_doc (env_purge_doc (fun _ => none) (byteStr "doc")) (byteStr "doc")
        = env_purge_doc (fun _ => none) (byteStr "doc") :=
  ⟨(c10_purge_absent_noop (fun _ => none) (byteStr "doc")).1 rfl,
   (c10_purge_absent_noop (fun _ => none) (byteStr "doc")).2⟩
